import Mathlib

/-
Shallow embedding of the schema-declaration / validation / coercion engine in
src/pydantic/__init__.py (a minimal subset of Pydantic used by the repository).

Translation conventions:
  - Python dynamic values become the inductive `Value`; `None` is `Value.null`,
    raw mappings (parsed structured-text trees) are association lists with
    string keys, and a constructed model instance is `Value.inst mro fields`
    carrying the names of its class hierarchy (so `isinstance` checks become
    membership of the target shape name in the stored hierarchy list).
  - The `MISSING` sentinel of the source is `Option.none` wherever it occurs
    (a `FieldInfo.default` of `none` is `MISSING`; an explicit `None` default
    is `some Value.null`, matching the distinct Python objects).
  - Declared type annotations become the inductive `Hint`, mirroring exactly
    the cases `_coerce_type` / `_allows_none` dispatch on: `unionNone args`
    is `Union[..., None]` (equivalently `Optional[...]`) holding the non-None
    members, `unionPlain` is a `Union` without `None`, `listH` covers the
    `list/List/tuple/Tuple` origins, `dictH` the `dict/Dict` origins,
    `recordH` a `BaseModel` subclass, `literalH` a `Literal[...]`, `scalar`
    any other plain class (int, str, Path, ...), `anyH` is `typing.Any`.
  - Exceptions raised during construction become `Except Err`; the
    `ValueError` of a missing required field is `Err.missingField` and the
    dynamic `TypeError` of iterating a non-iterable (or hashing an unhashable
    coerced key) is `Err.typeError`.
  - Validator functions `(cls, value) -> value` become Lean functions
    `String → Value → Value` receiving the concrete shape name for `cls`;
    default factories become `Unit → Value`.
-/

namespace Pyd

/-- Dynamic (Python) values flowing through the engine.  `pyObj tag` stands
for a Python object outside the plain-data fragment (it is neither `None`,
a bool, a number, a string, a list, a dict nor a model instance): every
branch of the source that dynamically tests for one of those kinds treats
such an object like any other unrecognised value, i.e. passes it through.
The serializer needs it for the class-table attributes `__field_defaults__`
and `__validators__` that `dict()` emits: their exported values are mappings
holding `FieldInfo` records and `(function, bool)` tuples, objects whose
embedded functions cannot be stored inside this inductive (a function
argument position would make the occurrence of `Value` non-positive), and
whose internal structure no plain-data consumer observes — only the keys
they sit under matter. -/
inductive Value where
  | null : Value
  | bool : Bool → Value
  | int : Int → Value
  | str : String → Value
  | list : List Value → Value
  | dict : List (String × Value) → Value
  | inst : List String → List (String × Value) → Value
  | pyObj : String → Value

/-- Errors raised by instance construction (`ValueError` for a missing
required field, dynamic `TypeError` for the failure modes of the coercion
comprehensions). -/
inductive Err where
  | missingField : String → String → Err
  | typeError : String → Err
deriving DecidableEq, Repr

/-- Mirror of the `FieldInfo` dataclass: `default=MISSING` is `none`,
an explicit default (possibly `None`) is `some v`. -/
structure FieldInfo where
  default : Option Value := none
  default_factory : Option (Unit → Value) := none

/-- Validator functions: Python `(cls, value) -> value`. -/
abbrev VFun := String → Value → Value

mutual

/-- Resolved type annotations, one constructor per case the source engine
distinguishes (see the header comment). -/
inductive Hint where
  | scalar : Hint
  | anyH : Hint
  | unionNone : List Hint → Hint
  | unionPlain : List Hint → Hint
  | listH : Hint → Hint
  | dictH : Hint → Hint → Hint
  | recordH : Shape → Hint
  | literalH : Hint

/-- A declared record shape as produced by `ModelMeta.__new__`:
class name, method-resolution-order names (for `isinstance`), the effective
ordered field list from `get_type_hints`, the merged `__field_defaults__`,
and the merged `__validators__`. -/
inductive Shape where
  | mk : String → List String → List (String × Hint) → List (String × FieldInfo) →
      List (String × List (VFun × Bool)) → Shape

end

def Shape.name : Shape → String
  | .mk n _ _ _ _ => n

def Shape.mro : Shape → List String
  | .mk _ m _ _ _ => m

def Shape.fields : Shape → List (String × Hint)
  | .mk _ _ f _ _ => f

def Shape.defaults : Shape → List (String × FieldInfo)
  | .mk _ _ _ d _ => d

def Shape.validators : Shape → List (String × List (VFun × Bool))
  | .mk _ _ _ _ v => v

/-- `dict.get(name)`: first value bound to the key, if any. -/
def lookup {α : Type} : List (String × α) → String → Option α
  | [], _ => none
  | (k, v) :: rest, key => if k = key then some v else lookup rest key

/-- `dict[name] = value`: replace in place if the key exists, else append
(Python dicts preserve first-insertion order). -/
def updateAssoc {α : Type} : List (String × α) → String → α → List (String × α)
  | [], key, v => [(key, v)]
  | (k, w) :: rest, key, v =>
      if k = key then (k, v) :: rest else (k, w) :: updateAssoc rest key v

/-- `dict.setdefault(key, []).extend(new)`: append to the existing list bound
to the key, or bind the key to the new list at the end. -/
def appendAssoc {β : Type} : List (String × List β) → String → List β → List (String × List β)
  | [], key, l => [(key, l)]
  | (k, ws) :: rest, key, l =>
      if k = key then (k, ws ++ l) :: rest else (k, ws) :: appendAssoc rest key l

/-- Validator list for a field (`__validators__.get(name, [])`). -/
def lookupVals (vs : List (String × List (VFun × Bool))) (name : String) : List (VFun × Bool) :=
  (lookup vs name).getD []

/-- `BaseModel._allows_none`: true exactly for `Union[..., None]` (which is
what `Optional[...]` evaluates to) and for `Any`. -/
def allowsNone : Hint → Bool
  | .unionNone _ => true
  | .anyH => true
  | _ => false

/-- `BaseModel._apply_validators`: fold the field's validator list, applying
exactly the entries whose phase tag matches `pre`, in list order. -/
def applyValidators (vals : List (VFun × Bool)) (cls : String) (pre : Bool) (v : Value) : Value :=
  vals.foldl (fun acc fv => if fv.2 == pre then fv.1 cls acc else acc) v

/-- Default resolution for an absent key (`__init__` lines: literal default
first, then the factory). `none` means the value is still `MISSING`. -/
def defaultResolved : Option FieldInfo → Option Value
  | some info =>
      match info.default with
      | some d => some d
      | none =>
          match info.default_factory with
          | some f => some (f ())
          | none => none
  | none => none

/-- Steps 1-2 of the per-field loop in `BaseModel.__init__`: look the field up
in the raw data; if absent resolve default then factory; if still missing,
absence is allowed only when the annotation allows `None`, otherwise raise
the missing-required-field `ValueError`. -/
def resolveRaw (data : List (String × Value)) (name : String) (fi : Option FieldInfo)
    (canNone : Bool) (sname : String) : Except Err Value :=
  match lookup data name with
  | some v => .ok v
  | none =>
      match defaultResolved fi with
      | some v => .ok v
      | none =>
          if canNone then .ok .null else .error (.missingField name sname)

/-- `isinstance(value, shape)`: the value is a model instance whose class
hierarchy contains the shape's name. -/
def isInstanceOf (v : Value) (s : Shape) : Bool :=
  match v with
  | .inst mro _ => mro.contains s.name
  | _ => false

lemma hint_sizeOf_pos (h : Hint) : 0 < sizeOf h := by
  cases h <;> simp

@[simp] lemma ok_bind {α β : Type} (a : α) (f : α → Except Err β) :
    (Except.ok a >>= f) = f a := rfl

@[simp] lemma error_bind {α β : Type} (e : Err) (f : α → Except Err β) :
    ((Except.error e : Except Err α) >>= f) = .error e := rfl

@[simp] lemma map_ok {α β : Type} (f : α → β) (a : α) :
    Except.map f (Except.ok a : Except Err α) = .ok (f a) := rfl

@[simp] lemma map_error {α β : Type} (f : α → β) (e : Err) :
    Except.map f (Except.error e : Except Err α) = .error e := rfl

mutual

/-- `BaseModel._coerce_type`, branch for branch:
  - `Union[..., None]`: `None` passes through, otherwise recurse into the
    first non-`None` member (or `Any` if there is none);
  - a plain `Union` misses every branch and falls to the final return;
  - `Literal[...]` has origin `Literal`, so it also falls through unchanged;
  - plain classes and `Any` fall through unchanged unless the class is a
    `BaseModel` subclass, in which case an instance passes through, a dict
    is parsed recursively, and anything else falls to the final return;
  - `list/tuple` origins build a new list by element-wise recursion over the
    iterable value (a dict iterates its keys, a string its characters;
    non-iterables raise `TypeError`);
  - `dict` origins rebuild the mapping coercing each key and value
    (a non-string coerced key cannot be stored: Python raises `TypeError`
    for unhashable coerced keys such as lists). -/
def coerce : Hint → Value → Except Err Value
  | .unionNone args, v =>
      match v with
      | .null => .ok .null
      | w => coerce (args.headD .anyH) w
  | .unionPlain _, v => .ok v
  | .scalar, v => .ok v
  | .anyH, v => .ok v
  | .literalH, v => .ok v
  | .recordH s, v =>
      if isInstanceOf v s then .ok v
      else
        match v with
        | .dict es => (constructFields s s.fields es).map (Value.inst s.mro)
        | w => .ok w
  | .listH t, v =>
      match v with
      | .list xs => (coerceList t xs).map Value.list
      | .dict es => (coerceList t (es.map fun e => Value.str e.1)).map Value.list
      | .str st => (coerceList t (st.data.map fun c => Value.str (String.mk [c]))).map Value.list
      | _ => .error (.typeError "value is not iterable")
  | .dictH kt vt, v =>
      match v with
      | .dict es => (coerceEntries kt vt es).map Value.dict
      | _ => .error (.typeError "value has no items")
termination_by h v => (sizeOf h, 0)
decreasing_by
  all_goals simp_wf
  all_goals
    first
      | (apply Prod.Lex.right; simp <;> omega)
      | (apply Prod.Lex.left
         first
           | (cases args <;> simp <;> omega)
           | (cases s <;> simp [Shape.fields] <;> omega)
           | (have hk := hint_sizeOf_pos kt; have hv := hint_sizeOf_pos vt; omega)
           | (simp <;> omega)
           | omega)

/-- The list comprehension `[coerce(args[0], item) for item in value]`. -/
def coerceList (t : Hint) : List Value → Except Err (List Value)
  | [] => .ok []
  | x :: rest => do
      let y ← coerce t x
      let ys ← coerceList t rest
      .ok (y :: ys)
termination_by l => (sizeOf t, 1 + l.length)
decreasing_by
  all_goals simp_wf
  all_goals
    first
      | (apply Prod.Lex.right; simp <;> omega)
      | (apply Prod.Lex.left; simp <;> omega)

/-- The dict comprehension coercing keys and values pairwise. -/
def coerceEntries (kt vt : Hint) : List (String × Value) → Except Err (List (String × Value))
  | [] => .ok []
  | (k, v) :: rest => do
      let kc ← coerce kt (.str k)
      let vc ← coerce vt v
      match kc with
      | .str ks => do
          let restc ← coerceEntries kt vt rest
          .ok ((ks, vc) :: restc)
      | _ => .error (.typeError "unhashable coerced key")
termination_by l => (sizeOf kt + sizeOf vt, 1 + l.length)
decreasing_by
  all_goals simp_wf
  all_goals
    first
      | (apply Prod.Lex.right; simp <;> omega)
      | (apply Prod.Lex.left
         first
           | (have hk := hint_sizeOf_pos kt; have hv := hint_sizeOf_pos vt; omega)
           | (simp <;> omega))

/-- The per-field loop of `BaseModel.__init__` over the effective field list:
resolve the raw value (lookup, default, factory, missing check), run
pre-phase validators on it, coerce, run post-phase validators, and store the
binding; any raised error aborts the whole construction. -/
def constructFields (s : Shape) : List (String × Hint) → List (String × Value) →
    Except Err (List (String × Value))
  | [], _ => .ok []
  | (name, h) :: rest, data => do
      let raw ← resolveRaw data name (lookup s.defaults name) (allowsNone h) s.name
      let v1 := applyValidators (lookupVals s.validators name) s.name true raw
      let v2 ← coerce h v1
      let v3 := applyValidators (lookupVals s.validators name) s.name false v2
      let restVals ← constructFields s rest data
      .ok ((name, v3) :: restVals)
termination_by fields data => (sizeOf fields, 0)
decreasing_by
  all_goals simp_wf
  all_goals (apply Prod.Lex.left; first | (simp <;> omega) | omega)

end

/-- `construct(shape, raw)`, i.e. `shape(**raw)` / `shape.parse_obj(raw)`:
run the field loop and package the bindings as an instance. -/
def construct (s : Shape) (data : List (String × Value)) : Except Err Value :=
  (constructFields s s.fields data).map (Value.inst s.mro)

mutual

/-- `BaseModel._export_value` together with `BaseModel.dict`.  `dict()`
iterates `get_type_hints(type(self))`, which merges annotations over the
reversed method resolution order, so it starts with `BaseModel`'s own two
annotations `__field_defaults__` and `__validators__` and then lists the
declared fields in effective order.  Unlike `__init__`, `dict()` has no
double-underscore skip, so every serialized instance carries those two keys
before its field bindings; `getattr` finds the class tables for them, and
`_export_value` rebuilds them as mappings whose leaves (`FieldInfo` records
and `(function, bool)` tuples) match none of its dynamic type tests and
pass through as foreign objects — represented here opaquely by `pyObj`
tagged with the attribute name (see the comment on `Value`).  The stored
field bindings (which `__init__` laid down in effective-field order, the
same order `dict()` iterates) follow, exported element-wise for lists and
dicts; everything else is returned unchanged. -/
def exportValue : Value → Value
  | .inst _ flds =>
      .dict (("__field_defaults__", .pyObj "__field_defaults__") ::
        ("__validators__", .pyObj "__validators__") :: exportEntries flds)
  | .list xs => .list (exportList xs)
  | .dict es => .dict (exportEntries es)
  | v => v

def exportList : List Value → List Value
  | [] => []
  | v :: rest => exportValue v :: exportList rest

def exportEntries : List (String × Value) → List (String × Value)
  | [] => []
  | (n, v) :: rest => (n, exportValue v) :: exportEntries rest

end

/-- Key list of a serialized mapping. -/
def dictKeys : Value → List String
  | .dict es => es.map Prod.fst
  | _ => []

/-- Class-body items seen by `ModelMeta.__new__`: a `FieldInfo` produced by
`Field(...)`, a plain class attribute (tagged with whether it is callable),
or a function decorated by `validator(*fields, pre=...)`. -/
inductive NsVal where
  | fieldInfo : FieldInfo → NsVal
  | plain : Value → Bool → NsVal
  | vfun : List String → Bool → VFun → NsVal

/-- The `attr in namespace and not callable(namespace[attr])` test of the
annotations loop (after `FieldInfo` attributes were popped). -/
def nsPlainNonCallable (ns : List (String × NsVal)) (attr : String) : Option Value :=
  match lookup ns attr with
  | some (.plain v false) => some v
  | _ => none

/-- The `get_type_hints` merge over the method resolution order: the parent's
annotations are inserted first (so an inherited name keeps the parent's
position while the child's annotation replaces its hint), then the child's
new names follow in declaration order. -/
def mergeFields (parentFields ownAnn : List (String × Hint)) : List (String × Hint) :=
  parentFields.map (fun p => (p.1, (lookup ownAnn p.1).getD p.2)) ++
    ownAnn.filter (fun p => (lookup parentFields p.1).isNone)

/-- `ModelMeta.__new__`: start from the parent's `__field_defaults__` and
`__validators__` (a direct `BaseModel` subclass starts empty), register the
`FieldInfo` class attributes, then wrap plain non-callable defaults of
annotated names that are not yet registered, and finally append each
decorated validator to every field it names. -/
def mkShape (parent : Option Shape) (name : String) (ann : List (String × Hint))
    (ns : List (String × NsVal)) : Shape :=
  let pFields := match parent with | some p => p.fields | none => []
  let pDefaults := match parent with | some p => p.defaults | none => []
  let pValidators := match parent with | some p => p.validators | none => []
  let pMro := match parent with | some p => p.mro | none => ["BaseModel"]
  let d1 := ns.foldl
    (fun acc av =>
      match av.2 with
      | .fieldInfo fi => updateAssoc acc av.1 fi
      | _ => acc) pDefaults
  let d2 := ann.foldl
    (fun acc nh =>
      if (lookup acc nh.1).isSome then acc
      else
        match nsPlainNonCallable ns nh.1 with
        | some v => updateAssoc acc nh.1 ⟨some v, none⟩
        | none => acc) d1
  let vs := ns.foldl
    (fun acc av =>
      match av.2 with
      | .vfun flds pre fn => flds.foldl (fun a f => appendAssoc a f [(fn, pre)]) acc
      | _ => acc) pValidators
  Shape.mk name (name :: pMro) (mergeFields pFields ann) d2 vs

/-
Note: `get_type_hints` also returns the dunder annotations declared on
`BaseModel` itself (`__field_defaults__`, `__validators__`); the loop in
`__init__` skips every name starting with a double underscore, so they never
act as fields.  The embedding therefore starts a direct `BaseModel` subclass
from the empty field list and omits the skip.  `dict()` performs no such
skip: the two dunder names are serialized like any other hint — `exportValue`
models that.
-/

/-- The descriptor classification implicit in `_coerce_type`'s dispatch:
which branch of the coercion engine a resolved annotation selects.
`scalarPass` collects every annotation that reaches the final
`return value` unconditionally (plain classes, `Any`, and a `Union` without
`None`). The classification is a total function: no annotation is rejected
at resolution time. -/
inductive DescKind where
  | optional : DescKind
  | sequence : DescKind
  | mapping : DescKind
  | record : DescKind
  | literalSet : DescKind
  | scalarPass : DescKind
deriving DecidableEq, Repr

def descriptorKind : Hint → DescKind
  | .unionNone _ => .optional
  | .listH _ => .sequence
  | .dictH _ _ => .mapping
  | .recordH _ => .record
  | .literalH => .literalSet
  | .scalar => .scalarPass
  | .anyH => .scalarPass
  | .unionPlain _ => .scalarPass

/-- The validator entries a single class body contributes for field `f`,
in declaration order (one entry per occurrence of `f` in a decorator's field
list), as collected by the namespace scan of `ModelMeta.__new__`. -/
def ownVals (ns : List (String × NsVal)) (f : String) : List (VFun × Bool) :=
  match ns with
  | [] => []
  | (_, NsVal.vfun flds pre fn) :: rest =>
      (flds.filter fun g => g == f).map (fun _ => (fn, pre)) ++ ownVals rest f
  | _ :: rest => ownVals rest f

/-! Concrete shapes used to evaluate the engine on closed inputs.  They
mirror the example schemas of the specification: a parent/child pair with a
redeclared plain default, a nested record pair, an optional field with a
post-phase validator, and a required/optional field pair. -/

/-- `class P(BaseModel): x: int = 1`. -/
def Pshape : Shape := mkShape none "P" [("x", Hint.scalar)] [("x", .plain (.int 1) false)]

/-- `class C(P): x: int = 2`. -/
def Cshape : Shape := mkShape (some Pshape) "C" [("x", Hint.scalar)] [("x", .plain (.int 2) false)]

/-- `class Inner(BaseModel): v: int`. -/
def InnerShape : Shape := mkShape none "Inner" [("v", Hint.scalar)] []

/-- `class Outer(BaseModel): item: Inner`. -/
def OuterShape : Shape := mkShape none "Outer" [("item", Hint.recordH InnerShape)] []

/-- `class Outer2(BaseModel): items: List[Inner]`. -/
def Outer2Shape : Shape :=
  mkShape none "Outer2" [("items", Hint.listH (Hint.recordH InnerShape))] []

/-- A post-phase validator that turns `None` into `7` and keeps anything
else: evidence that the post phase runs on absent optional fields. -/
def postNullToSeven : VFun := fun _ v =>
  match v with
  | .null => .int 7
  | w => w

/-- `class OptS(BaseModel): x: Optional[int]` with
`@validator("x")` (post phase) applying `postNullToSeven`. -/
def OptShape : Shape :=
  mkShape none "OptS" [("x", Hint.unionNone [Hint.scalar])]
    [("f", .vfun ["x"] false postNullToSeven)]

/-- `class S2(BaseModel): a: int; b: Optional[int]` — one required field,
one optional field. -/
def TwoFieldShape : Shape :=
  mkShape none "S2" [("a", Hint.scalar), ("b", Hint.unionNone [Hint.scalar])] []

/-- `class Req2(BaseModel): p: int; q: int` — two required scalar fields. -/
def Req2Shape : Shape :=
  mkShape none "Req2" [("p", Hint.scalar), ("q", Hint.scalar)] []

/-! Helper lemmas about the engine, shared by the claim theorems. -/

@[simp] lemma bind_pure_except {α : Type} (x : Except Err α) :
    (x >>= fun a => Except.ok a) = x := by
  cases x <;> rfl

lemma exportEntries_keys (l : List (String × Value)) :
    (exportEntries l).map Prod.fst = l.map Prod.fst := by
  induction l with
  | nil => simp [exportEntries]
  | cons p rest ih =>
      obtain ⟨n, v⟩ := p
      simp [exportEntries, ih]

/-- Inversion of one successful step of the field loop. -/
lemma constructFields_cons_ok (s : Shape) (name : String) (h : Hint)
    (rest : List (String × Hint)) (data l : List (String × Value))
    (hok : constructFields s ((name, h) :: rest) data = .ok l) :
    ∃ raw v2 restVals,
      resolveRaw data name (lookup s.defaults name) (allowsNone h) s.name = .ok raw ∧
      coerce h (applyValidators (lookupVals s.validators name) s.name true raw) = .ok v2 ∧
      constructFields s rest data = .ok restVals ∧
      l = (name, applyValidators (lookupVals s.validators name) s.name false v2) :: restVals := by
  rw [constructFields] at hok
  cases hres : resolveRaw data name (lookup s.defaults name) (allowsNone h) s.name with
  | error e => rw [hres] at hok; simp at hok
  | ok raw =>
      rw [hres] at hok
      simp only [ok_bind] at hok
      cases hco : coerce h (applyValidators (lookupVals s.validators name) s.name true raw) with
      | error e => rw [hco] at hok; simp at hok
      | ok v2 =>
          rw [hco] at hok
          simp only [ok_bind] at hok
          cases hrest : constructFields s rest data with
          | error e => rw [hrest] at hok; simp at hok
          | ok restVals =>
              rw [hrest] at hok
              simp at hok
              exact ⟨raw, v2, restVals, rfl, hco, rfl, hok.symm⟩

/-- A successful field loop binds exactly the declared field names, in
declaration order. -/
lemma constructFields_keys (s : Shape) (fields : List (String × Hint))
    (data l : List (String × Value))
    (hok : constructFields s fields data = .ok l) :
    l.map Prod.fst = fields.map Prod.fst := by
  induction fields generalizing l with
  | nil =>
      rw [constructFields] at hok
      simp at hok
      subst hok
      simp
  | cons p rest ih =>
      obtain ⟨name, h⟩ := p
      obtain ⟨raw, v2, restVals, _, _, hrest, hl⟩ :=
        constructFields_cons_ok s name h rest data l hok
      subst hl
      simp [ih restVals hrest]

/-- A field that is absent, has no default source and whose annotation does
not allow `None` makes the whole field loop fail as soon as it occurs
anywhere in the field list. -/
lemma constructFields_missing_mem (s : Shape) (name : String) (h : Hint)
    (fields : List (String × Hint)) (data : List (String × Value))
    (hmem : (name, h) ∈ fields)
    (habs : lookup data name = none)
    (hdef : defaultResolved (lookup s.defaults name) = none)
    (hopt : allowsNone h = false) :
    ∃ e, constructFields s fields data = .error e := by
  induction fields with
  | nil => cases hmem
  | cons p rest ih =>
      cases hmem with
      | head =>
          refine ⟨.missingField name s.name, ?_⟩
          rw [constructFields]
          simp [resolveRaw, habs, hdef, hopt]
      | tail _ hmem' =>
          obtain ⟨n, h'⟩ := p
          cases hres : resolveRaw data n (lookup s.defaults n) (allowsNone h') s.name with
          | error e => exact ⟨e, by rw [constructFields]; simp [hres]⟩
          | ok raw =>
              cases hco : coerce h' (applyValidators (lookupVals s.validators n) s.name true raw) with
              | error e => exact ⟨e, by rw [constructFields]; simp [hres, hco]⟩
              | ok v2 =>
                  obtain ⟨e, he⟩ := ih hmem'
                  exact ⟨e, by rw [constructFields]; simp [hres, hco, he]⟩

/-- Splitting the field loop after a successful run over an initial segment. -/
lemma constructFields_append_of_ok (s : Shape) (l1 l2 : List (String × Hint))
    (data acc : List (String × Value))
    (hok : constructFields s l1 data = .ok acc) :
    constructFields s (l1 ++ l2) data =
      (do
        let b ← constructFields s l2 data
        Except.ok (acc ++ b)) := by
  induction l1 generalizing acc with
  | nil =>
      rw [constructFields] at hok
      simp at hok
      subst hok
      simp
  | cons p rest ih =>
      obtain ⟨name, h⟩ := p
      obtain ⟨raw, v2, restVals, hres, hco, hrest, hl⟩ :=
        constructFields_cons_ok s name h rest data acc hok
      subst hl
      rw [List.cons_append, constructFields]
      simp [hres, hco, ih restVals hrest]

/-- Raw-value resolution reads the data mapping only through the field's own
key. -/
lemma resolveRaw_congr (d1 d2 : List (String × Value)) (name : String)
    (fi : Option FieldInfo) (canNone : Bool) (sname : String)
    (h : lookup d1 name = lookup d2 name) :
    resolveRaw d1 name fi canNone sname = resolveRaw d2 name fi canNone sname := by
  unfold resolveRaw
  rw [h]

/-- The field loop reads the data mapping only at the declared field names. -/
lemma constructFields_data_congr (s : Shape) (fields : List (String × Hint))
    (d1 d2 : List (String × Value))
    (h : ∀ p ∈ fields, lookup d1 p.1 = lookup d2 p.1) :
    constructFields s fields d1 = constructFields s fields d2 := by
  induction fields with
  | nil => rw [constructFields, constructFields]
  | cons p rest ih =>
      obtain ⟨name, hint⟩ := p
      rw [constructFields]
      conv_rhs => rw [constructFields]
      rw [resolveRaw_congr d1 d2 name _ _ _ (h (name, hint) (List.mem_cons_self _ _)),
        ih (fun q hq => h q (List.mem_cons_of_mem _ hq))]

/-- Filtering a mapping by a key predicate preserves lookups of keys that
satisfy the predicate. -/
lemma lookup_filter_mem (names : List String) (data : List (String × Value))
    (key : String) (hkey : key ∈ names) :
    lookup (data.filter fun p => decide (p.1 ∈ names)) key = lookup data key := by
  induction data with
  | nil => rfl
  | cons p rest ih =>
      obtain ⟨k, v⟩ := p
      by_cases hk : k ∈ names
      · simp [List.filter_cons, hk, lookup, ih]
      · have hne : ¬(k = key) := fun he => hk (he ▸ hkey)
        simp [List.filter_cons, hk, lookup, hne, ih]

/-- `_apply_validators` runs exactly the validators of the requested phase,
in list order. -/
lemma applyValidators_phase (vals : List (VFun × Bool)) (cls : String)
    (ph : Bool) (v : Value) :
    applyValidators vals cls ph v =
      (vals.filter fun p => p.2 == ph).foldl (fun acc p => p.1 cls acc) v := by
  induction vals generalizing v with
  | nil => rfl
  | cons fv rest ih =>
      by_cases hb : fv.2 = ph
      · simp [applyValidators, List.filter_cons, hb] at ih ⊢
        exact ih (fv.1 cls v)
      · simp [applyValidators, List.filter_cons, hb] at ih ⊢
        exact ih v

/-- Lookup after `setdefault(key, []).extend(l)`. -/
lemma lookup_appendAssoc (A : List (String × List (VFun × Bool))) (key : String)
    (l : List (VFun × Bool)) (f : String) :
    lookup (appendAssoc A key l) f =
      if key = f then some (lookupVals A f ++ l) else lookup A f := by
  induction A with
  | nil =>
      by_cases hf : key = f <;> simp [appendAssoc, lookup, lookupVals, hf]
  | cons p rest ih =>
      obtain ⟨k, ws⟩ := p
      by_cases hk : k = key
      · subst hk
        by_cases hf : k = f <;> simp [appendAssoc, lookup, lookupVals, hf]
      · by_cases hf : k = f
        · subst hf
          have hne : ¬(key = k) := fun he => hk he.symm
          simp [appendAssoc, hk, lookup, lookupVals, hne]
        · simp [appendAssoc, hk, lookup, hf, ih, lookupVals]

/-- Registering one decorated validator for all the fields it names appends
one entry per occurrence of the field, preserving everything else. -/
lemma lookupVals_foldl_fields (flds : List String) (fn : VFun) (pre : Bool)
    (acc : List (String × List (VFun × Bool))) (f : String) :
    lookupVals (flds.foldl (fun a g => appendAssoc a g [(fn, pre)]) acc) f =
      lookupVals acc f ++ (flds.filter fun g => g == f).map (fun _ => (fn, pre)) := by
  induction flds generalizing acc with
  | nil => simp
  | cons g rest ih =>
      by_cases hg : g = f
      · subst hg
        simp only [List.foldl_cons, ih, List.filter_cons]
        simp [lookupVals, lookup_appendAssoc]
      · simp only [List.foldl_cons, ih, List.filter_cons]
        have : (g == f) = false := by simp [hg]
        simp [this, lookupVals, lookup_appendAssoc, hg]

/-- The namespace scan of `ModelMeta.__new__` concatenates the class body's
own validator entries after whatever was already registered. -/
lemma lookupVals_ns_foldl (ns : List (String × NsVal))
    (acc : List (String × List (VFun × Bool))) (f : String) :
    lookupVals
        (ns.foldl
          (fun acc av =>
            match av.2 with
            | .vfun flds pre fn => flds.foldl (fun a g => appendAssoc a g [(fn, pre)]) acc
            | _ => acc) acc) f =
      lookupVals acc f ++ ownVals ns f := by
  induction ns generalizing acc with
  | nil => simp [ownVals]
  | cons av rest ih =>
      obtain ⟨attr, nv⟩ := av
      cases nv with
      | fieldInfo fi => simp [ownVals, ih]
      | plain v c => simp [ownVals, ih]
      | vfun flds pre fn =>
          simp only [List.foldl_cons, ih, ownVals]
          rw [lookupVals_foldl_fields]
          simp

/-- Element-wise specification of a successful list coercion. -/
lemma coerceList_spec (t : Hint) (xs ys : List Value)
    (hok : coerceList t xs = .ok ys) :
    List.Forall₂ (fun x y => coerce t x = .ok y) xs ys := by
  induction xs generalizing ys with
  | nil =>
      rw [coerceList] at hok
      simp at hok
      subst hok
      exact List.Forall₂.nil
  | cons x rest ih =>
      rw [coerceList] at hok
      cases hx : coerce t x with
      | error e => rw [hx] at hok; simp at hok
      | ok y =>
          rw [hx] at hok
          simp only [ok_bind] at hok
          cases hrest : coerceList t rest with
          | error e => rw [hrest] at hok; simp at hok
          | ok ys' =>
              rw [hrest] at hok
              simp at hok
              subst hok
              exact List.Forall₂.cons hx (ih ys' hrest)

/-- Serializing any successfully constructed instance yields the two
class-table annotation names of `BaseModel` followed by exactly the declared
field names, in declaration order. -/
lemma construct_ok_keys (s : Shape) (data : List (String × Value)) (r : Value)
    (hok : construct s data = .ok r) :
    dictKeys (exportValue r) =
      "__field_defaults__" :: "__validators__" :: s.fields.map Prod.fst := by
  unfold construct at hok
  cases hcf : constructFields s s.fields data with
  | error e => rw [hcf] at hok; simp at hok
  | ok flds =>
      rw [hcf] at hok
      simp at hok
      subst hok
      simp [exportValue, dictKeys, exportEntries_keys,
        constructFields_keys s s.fields data flds hcf]

/-! The claim theorems. -/

/-- Claim C1 (code divergence): the specification asserts that for parent
`P` with `x: int = 1` and child `C(P)` redeclaring `x: int = 2`,
constructing `C` from an empty mapping yields `x == 2`.  The source yields
`x == 1` instead: the annotations loop of `ModelMeta.__new__` skips any
annotated name already present in the inherited `__field_defaults__`, so the
child's plain default `2` is never registered and the parent's default `1`
wins.  This theorem evaluates the engine at that failing input. -/
theorem childPlainDefault_is_ignored :
    construct Cshape [] = .ok (.inst ["C", "P", "BaseModel"] [("x", Value.int 1)]) := by
  simp [construct, constructFields, resolveRaw, defaultResolved, allowsNone,
    applyValidators, lookupVals, coerce, isInstanceOf, lookup, updateAssoc, appendAssoc,
    mkShape, mergeFields, nsPlainNonCallable, Shape.fields, Shape.mro, Shape.name,
    Shape.defaults, Shape.validators, Cshape, Pshape]

/-- Claim C2, counterexample: the claim asserts that coercing a value that
is neither an `Inner` instance nor a mapping into a `Record⟨Inner⟩` field
fails with a coercion error.  In the source the record branch of
`_coerce_type` simply falls through to the final `return value`, so
`construct(Outer, item=5)` succeeds and stores the raw `5`. -/
theorem recordMismatch_passes_through :
    construct OuterShape [("item", Value.int 5)] =
      .ok (.inst ["Outer", "BaseModel"] [("item", Value.int 5)]) := by
  simp [construct, constructFields, resolveRaw, defaultResolved, allowsNone,
    applyValidators, lookupVals, coerce, isInstanceOf, lookup, updateAssoc, appendAssoc,
    mkShape, mergeFields, nsPlainNonCallable, Shape.fields, Shape.mro, Shape.name,
    Shape.defaults, Shape.validators, OuterShape, InnerShape]

/-- Claim C2, amended: for a field declared as a nested record shape `S`,
an existing instance of `S` passes through unchanged, a raw mapping is
constructed recursively through the instance constructor, and every other
value is returned unchanged (stored as-is) rather than raising an error. -/
theorem recordCoercion_amended (s : Shape) (v : Value) :
    (isInstanceOf v s = true → coerce (.recordH s) v = .ok v) ∧
    (∀ es, coerce (.recordH s) (.dict es) = construct s es) ∧
    (isInstanceOf v s = false → (∀ es, v ≠ .dict es) → coerce (.recordH s) v = .ok v) := by
  refine ⟨fun hinst => ?_, fun es => ?_, fun hnotinst hnotdict => ?_⟩
  · cases v with
    | inst mro flds => rw [coerce] <;> simp [hinst]
    | null => simp [isInstanceOf] at hinst
    | bool b => simp [isInstanceOf] at hinst
    | int n => simp [isInstanceOf] at hinst
    | str st => simp [isInstanceOf] at hinst
    | list xs => simp [isInstanceOf] at hinst
    | dict es => simp [isInstanceOf] at hinst
    | pyObj tag => simp [isInstanceOf] at hinst
  · rw [coerce]
    simp [isInstanceOf, construct]
  · cases v with
    | dict es => exact absurd rfl (hnotdict es)
    | inst mro flds => rw [coerce] <;> simp [hnotinst]
    | null => rw [coerce] <;> simp [isInstanceOf]
    | bool b => rw [coerce] <;> simp [isInstanceOf]
    | int n => rw [coerce] <;> simp [isInstanceOf]
    | str st => rw [coerce] <;> simp [isInstanceOf]
    | list xs => rw [coerce] <;> simp [isInstanceOf]
    | pyObj tag => rw [coerce] <;> simp [isInstanceOf]

/-- Claim C2, witness for the amended theorem at a concrete non-instance,
non-mapping value. -/
theorem recordCoercion_amended_witness :
    coerce (.recordH InnerShape) (Value.int 5) = .ok (Value.int 5) :=
  (recordCoercion_amended InnerShape (Value.int 5)).2.2 rfl
    (fun es h => Value.noConfusion h)

/-- Claim C3, counterexample: the claim asserts that when an Optional field
is absent, neither coercion nor any post-phase validator runs for it.  In
the source `__init__` always runs all three stages; a post-phase validator
registered for the absent optional field receives `None` and here rewrites
it to `7`, which ends up stored on the instance. -/
theorem optionalAbsent_postValidator_runs :
    construct OptShape [] = .ok (.inst ["OptS", "BaseModel"] [("x", Value.int 7)]) := by
  simp [construct, constructFields, resolveRaw, defaultResolved, allowsNone,
    applyValidators, lookupVals, coerce, isInstanceOf, lookup, updateAssoc, appendAssoc,
    mkShape, mergeFields, nsPlainNonCallable, Shape.fields, Shape.mro, Shape.name,
    Shape.defaults, Shape.validators, OptShape, postNullToSeven]

/-- Claim C3, amended: when an Optional (`Union[..., None]`) field is absent
after default resolution, the resolved value is the `None` marker and the
pre-phase validators receive it; coercion then runs but maps `None` to
`None`, and the post-phase validators also run, receiving the coerced
value.  (The claim's assertion that coercion and post-validation are
skipped is what fails; everything else holds.) -/
theorem optionalAbsent_phases_amended (s : Shape) (name : String) (args : List Hint)
    (rest : List (String × Hint)) (data : List (String × Value))
    (habs : lookup data name = none)
    (hdef : defaultResolved (lookup s.defaults name) = none) :
    coerce (.unionNone args) .null = .ok .null ∧
    constructFields s ((name, .unionNone args) :: rest) data =
      (do
        let v2 ← coerce (.unionNone args)
          (applyValidators (lookupVals s.validators name) s.name true .null)
        let restVals ← constructFields s rest data
        Except.ok ((name,
          applyValidators (lookupVals s.validators name) s.name false v2) :: restVals)) := by
  constructor
  · rw [coerce]
  · rw [constructFields]
    simp [resolveRaw, habs, hdef, allowsNone]

/-- Claim C3, witness for the amended theorem: the optional field of
`OptShape` is absent, resolves to `None`, and flows through all three
stages (its post validator turns the `None` into `7`). -/
theorem optionalAbsent_phases_amended_witness :
    coerce (Hint.unionNone [Hint.scalar]) .null = .ok .null ∧
    constructFields OptShape [("x", Hint.unionNone [Hint.scalar])] [] =
      (do
        let v2 ← coerce (Hint.unionNone [Hint.scalar])
          (applyValidators (lookupVals OptShape.validators "x") OptShape.name true .null)
        let restVals ← constructFields OptShape [] []
        Except.ok (("x",
          applyValidators (lookupVals OptShape.validators "x") OptShape.name false v2) :: restVals)) :=
  optionalAbsent_phases_amended OptShape "x" [Hint.scalar] [] [] rfl rfl

/-- Claim C4, counterexample: the claim asserts that for any valid raw
mapping covering every required field, the serialized key set equals the key
set of the input mapping.  `TwoFieldShape` has required `a` and optional
`b`; the mapping `{a: 1}` covers every required field and construction
succeeds, but serialization emits the keys
`[__field_defaults__, __validators__, a, b]` — `dict()` iterates the
`get_type_hints` output (`BaseModel`'s two dunder annotations followed by
the declared fields, with no dunder skip), not the input keys — so the key
set is not `[a]`. -/
theorem serializeKeys_differ_from_input :
    construct TwoFieldShape [("a", Value.int 1)] =
      .ok (.inst ["S2", "BaseModel"] [("a", Value.int 1), ("b", Value.null)]) ∧
    dictKeys (exportValue
      (.inst ["S2", "BaseModel"] [("a", Value.int 1), ("b", Value.null)])) =
      ["__field_defaults__", "__validators__", "a", "b"] ∧
    (["__field_defaults__", "__validators__", "a", "b"] : List String) ≠ ["a"] := by
  refine ⟨?_, ?_, by decide⟩
  · simp [construct, constructFields, resolveRaw, defaultResolved, allowsNone,
      applyValidators, lookupVals, coerce, isInstanceOf, lookup, updateAssoc, appendAssoc,
      mkShape, mergeFields, nsPlainNonCallable, Shape.fields, Shape.mro, Shape.name,
      Shape.defaults, Shape.validators, TwoFieldShape]
  · simp [exportValue, exportEntries, dictKeys]

/-- Claim C4, amended: whenever construction succeeds, the serialized output
has as keys the two `BaseModel` class-table annotation names
(`__field_defaults__`, `__validators__`) followed by exactly the declared
field names of the shape, in declaration order; consequently the round-trip
on keys fails for every input mapping that does not itself contain
`__field_defaults__` as a key — in particular for any mapping whose keys are
just field names, even one covering exactly the declared fields. -/
theorem serializeKeys_declared_amended (s : Shape) (data : List (String × Value))
    (r : Value) (hok : construct s data = .ok r) :
    dictKeys (exportValue r) =
      "__field_defaults__" :: "__validators__" :: s.fields.map Prod.fst ∧
    ("__field_defaults__" ∉ data.map Prod.fst →
      dictKeys (exportValue r) ≠ data.map Prod.fst) := by
  have h1 := construct_ok_keys s data r hok
  refine ⟨h1, fun hnot hEq => hnot ?_⟩
  rw [← hEq, h1]
  exact List.mem_cons_self _ _

/-- Claim C4, witness: a successfully constructed `TwoFieldShape` instance
serializes with the dunder keys in front, and its key list differs from the
input's keys `[a, b]`. -/
theorem serializeKeys_declared_amended_witness :
    dictKeys (exportValue
        (Value.inst ["S2", "BaseModel"] [("a", Value.int 1), ("b", Value.int 2)])) =
      "__field_defaults__" :: "__validators__" ::
        (Shape.fields TwoFieldShape).map Prod.fst ∧
    dictKeys (exportValue
        (Value.inst ["S2", "BaseModel"] [("a", Value.int 1), ("b", Value.int 2)])) ≠
      [("a", Value.int 1), ("b", Value.int 2)].map Prod.fst :=
  ⟨(serializeKeys_declared_amended TwoFieldShape [("a", Value.int 1), ("b", Value.int 2)]
      (Value.inst ["S2", "BaseModel"] [("a", Value.int 1), ("b", Value.int 2)])
      (by simp [construct, constructFields, resolveRaw, defaultResolved, allowsNone,
        applyValidators, lookupVals, coerce, isInstanceOf, lookup, updateAssoc, appendAssoc,
        mkShape, mergeFields, nsPlainNonCallable, Shape.fields, Shape.mro, Shape.name,
        Shape.defaults, Shape.validators, TwoFieldShape])).1,
   (serializeKeys_declared_amended TwoFieldShape [("a", Value.int 1), ("b", Value.int 2)]
      (Value.inst ["S2", "BaseModel"] [("a", Value.int 1), ("b", Value.int 2)])
      (by simp [construct, constructFields, resolveRaw, defaultResolved, allowsNone,
        applyValidators, lookupVals, coerce, isInstanceOf, lookup, updateAssoc, appendAssoc,
        mkShape, mergeFields, nsPlainNonCallable, Shape.fields, Shape.mro, Shape.name,
        Shape.defaults, Shape.validators, TwoFieldShape])).2 (by decide)⟩

/-- Claim C5: a field that is absent from the raw mapping, has neither a
literal default nor a default factory, and whose annotation does not allow
`None` always aborts construction (no instance is returned); and when every
field declared before it processes successfully, the raised error is
exactly the missing-field `ValueError` naming the field and the shape. -/
theorem missingRequired_aborts (s : Shape) (name : String) (h : Hint)
    (before rest : List (String × Hint)) (data : List (String × Value))
    (hf : s.fields = before ++ (name, h) :: rest)
    (habs : lookup data name = none)
    (hdef : defaultResolved (lookup s.defaults name) = none)
    (hopt : allowsNone h = false) :
    (∃ e, construct s data = .error e) ∧
    (∀ acc, constructFields s before data = .ok acc →
      construct s data = .error (.missingField name s.name)) := by
  have hmem : (name, h) ∈ s.fields := by
    rw [hf]
    exact List.mem_append_right _ (List.mem_cons_self _ _)
  obtain ⟨e, he⟩ := constructFields_missing_mem s name h s.fields data hmem habs hdef hopt
  constructor
  · exact ⟨e, by unfold construct; rw [he]; rfl⟩
  · intro acc hacc
    unfold construct
    rw [hf, constructFields_append_of_ok s before _ data acc hacc]
    have hhead : constructFields s ((name, h) :: rest) data =
        .error (.missingField name s.name) := by
      rw [constructFields]
      simp [resolveRaw, habs, hdef, hopt]
    rw [hhead]
    rfl

/-- Claim C5, witness: omitting required `q` of `Req2Shape` fails with the
error naming `q` and `Req2`. -/
theorem missingRequired_aborts_witness :
    construct Req2Shape [("p", Value.int 1)] = .error (.missingField "q" "Req2") :=
  (missingRequired_aborts Req2Shape "q" Hint.scalar [("p", Hint.scalar)] []
      [("p", Value.int 1)] rfl rfl rfl rfl).2 [("p", Value.int 1)]
    (by simp [constructFields, resolveRaw, defaultResolved, allowsNone, applyValidators,
      lookupVals, coerce, lookup, mkShape, mergeFields, nsPlainNonCallable, Shape.fields,
      Shape.name, Shape.defaults, Shape.validators, Req2Shape])

/-- Claim C6: validator phase inputs and ordering.  (1) The effective
validator list of a subclass for any field is the parent's list followed by
the entries declared in the subclass body, in declaration order (one entry
per named field occurrence).  (2) In the per-field pipeline the pre-phase
validators fold over the raw resolved value, coercion receives their
output, and the post-phase validators fold over the coerced value.  (3) A
phase applies exactly the validators tagged with that phase, in list order. -/
theorem validatorPhases_and_order :
    (∀ parent name ann ns f,
      lookupVals (Shape.validators (mkShape (some parent) name ann ns)) f =
        lookupVals (Shape.validators parent) f ++ ownVals ns f) ∧
    (∀ (s : Shape) name h rest data raw,
      resolveRaw data name (lookup s.defaults name) (allowsNone h) s.name = .ok raw →
      constructFields s ((name, h) :: rest) data =
        (do
          let v2 ← coerce h (applyValidators (lookupVals s.validators name) s.name true raw)
          let restVals ← constructFields s rest data
          Except.ok ((name,
            applyValidators (lookupVals s.validators name) s.name false v2) :: restVals))) ∧
    (∀ vals cls ph v, applyValidators vals cls ph v =
      (vals.filter fun p => p.2 == ph).foldl (fun acc p => p.1 cls acc) v) := by
  refine ⟨fun parent name ann ns f => ?_, fun s name h rest data raw hres => ?_,
    applyValidators_phase⟩
  · simp only [mkShape, Shape.validators]
    exact lookupVals_ns_foldl ns (Shape.validators parent) f
  · rw [constructFields, hres]
    simp only [ok_bind]

/-- Claim C6, witness: the pipeline form instantiated at a concrete field of
`InnerShape` with a present raw value. -/
theorem validatorPhases_and_order_witness :
    constructFields InnerShape [("v", Hint.scalar)] [("v", Value.int 3)] =
      (do
        let v2 ← coerce Hint.scalar
          (applyValidators (lookupVals InnerShape.validators "v") InnerShape.name true
            (Value.int 3))
        let restVals ← constructFields InnerShape [] [("v", Value.int 3)]
        Except.ok (("v",
          applyValidators (lookupVals InnerShape.validators "v") InnerShape.name false v2) ::
            restVals)) :=
  validatorPhases_and_order.2.1 InnerShape "v" Hint.scalar [] [("v", Value.int 3)]
    (Value.int 3) rfl

/-- Claim C7: descriptor resolution is the total function `descriptorKind`
(defined by exhaustive structural cases, so no declared annotation errors at
resolution time), and every annotation it does not classify as
optional/sequence/mapping/record/literal-set reaches the final
`return value` of `_coerce_type`: coercion passes the value through
unchanged. -/
theorem unclassifiedHint_passThrough (h : Hint) (v : Value)
    (hk : descriptorKind h = DescKind.scalarPass) :
    coerce h v = .ok v := by
  cases h with
  | scalar => rw [coerce]
  | anyH => rw [coerce]
  | unionPlain args => rw [coerce]
  | unionNone args => simp [descriptorKind] at hk
  | listH t => simp [descriptorKind] at hk
  | dictH kt vt => simp [descriptorKind] at hk
  | recordH s => simp [descriptorKind] at hk
  | literalH => simp [descriptorKind] at hk

/-- Claim C7, witness: a `Union` without `None` (an unclassified declared
type) passes an arbitrary value through unchanged. -/
theorem unclassifiedHint_passThrough_witness :
    coerce (Hint.unionPlain [Hint.scalar, Hint.scalar]) (Value.int 9) = .ok (Value.int 9) :=
  unclassifiedHint_passThrough (Hint.unionPlain [Hint.scalar, Hint.scalar]) (Value.int 9) rfl

/-- Claim C8: coercing an ordered-collection value into a homogeneous
sequence field builds a new ordered collection of the same length whose
elements are, in order, the element-type coercions of the input elements. -/
theorem sequenceCoercion_order_length (t : Hint) (xs : List Value) (r : Value)
    (hok : coerce (.listH t) (.list xs) = .ok r) :
    ∃ ys, r = .list ys ∧ ys.length = xs.length ∧
      List.Forall₂ (fun x y => coerce t x = .ok y) xs ys := by
  rw [coerce] at hok
  cases hcl : coerceList t xs with
  | error e => rw [hcl] at hok; simp at hok
  | ok ys =>
      rw [hcl] at hok
      simp at hok
      exact ⟨ys, hok.symm, (List.Forall₂.length_eq (coerceList_spec t xs ys hcl)).symm,
        coerceList_spec t xs ys hcl⟩

/-- Claim C8, witness: a two-element list of raw mappings coerces into two
nested instances in the given order. -/
theorem sequenceCoercion_order_length_witness :
    ∃ ys,
      Value.list [Value.inst ["Inner", "BaseModel"] [("v", Value.int 1)],
        Value.inst ["Inner", "BaseModel"] [("v", Value.int 2)]] = Value.list ys ∧
      ys.length = [Value.dict [("v", Value.int 1)], Value.dict [("v", Value.int 2)]].length ∧
      List.Forall₂ (fun x y => coerce (Hint.recordH InnerShape) x = .ok y)
        [Value.dict [("v", Value.int 1)], Value.dict [("v", Value.int 2)]] ys :=
  sequenceCoercion_order_length (Hint.recordH InnerShape)
    [Value.dict [("v", Value.int 1)], Value.dict [("v", Value.int 2)]]
    (Value.list [Value.inst ["Inner", "BaseModel"] [("v", Value.int 1)],
      Value.inst ["Inner", "BaseModel"] [("v", Value.int 2)]])
    (by simp [coerce, coerceList, constructFields, resolveRaw, defaultResolved, allowsNone,
      applyValidators, lookupVals, isInstanceOf, lookup, mkShape, mergeFields,
      nsPlainNonCallable, Shape.fields, Shape.mro, Shape.name, Shape.defaults,
      Shape.validators, InnerShape])

/-- Claim C9: a key that is present in the raw mapping — even bound to an
explicit `None` — bypasses default resolution and the missing-field check
entirely (they fire only on absent keys), and for a plain scalar field with
no validators the explicit `None` is stored on the instance unchanged. -/
theorem explicitNull_satisfies_required :
    (∀ data name fi canNone sname v, lookup data name = some v →
      resolveRaw data name fi canNone sname = .ok v) ∧
    (∀ (s : Shape) name rest data, lookup data name = some Value.null →
      lookupVals s.validators name = [] →
      constructFields s ((name, Hint.scalar) :: rest) data =
        (do
          let restVals ← constructFields s rest data
          Except.ok ((name, Value.null) :: restVals))) := by
  constructor
  · intro data name fi cn sn v hl
    unfold resolveRaw
    rw [hl]
  · intro s name rest data hl hv
    rw [constructFields]
    simp [resolveRaw, hl, hv, applyValidators, coerce]

/-- Claim C9, witness: an explicit `None` for required scalar `p` does not
raise and is stored. -/
theorem explicitNull_satisfies_required_witness :
    constructFields Req2Shape [("p", Hint.scalar)] [("p", Value.null)] =
      .ok [("p", Value.null)] :=
  (explicitNull_satisfies_required.2 Req2Shape "p" [] [("p", Value.null)] rfl rfl).trans
    (by rw [constructFields]; simp)

/-- Claim C10, counterexample: the claim asserts that the serialized output
of a constructed instance contains exactly the declared field names.  A
`TwoFieldShape` instance constructed with an undeclared key `zz` indeed
neither fails nor stores `zz`, but its serialization starts with
`__field_defaults__` and `__validators__` — names that are not declared
fields — because `dict()` iterates the `get_type_hints` output with no
dunder skip. -/
theorem unknownKeys_serialized_dunders :
    construct TwoFieldShape [("a", Value.int 1), ("zz", Value.int 9), ("b", Value.int 2)] =
      .ok (.inst ["S2", "BaseModel"] [("a", Value.int 1), ("b", Value.int 2)]) ∧
    dictKeys (exportValue
        (Value.inst ["S2", "BaseModel"] [("a", Value.int 1), ("b", Value.int 2)])) =
      ["__field_defaults__", "__validators__", "a", "b"] ∧
    "__field_defaults__" ∉ (Shape.fields TwoFieldShape).map Prod.fst := by
  refine ⟨?_, ?_, ?_⟩
  · simp [construct, constructFields, resolveRaw, defaultResolved, allowsNone,
      applyValidators, lookupVals, coerce, isInstanceOf, lookup, updateAssoc, appendAssoc,
      mkShape, mergeFields, nsPlainNonCallable, Shape.fields, Shape.mro, Shape.name,
      Shape.defaults, Shape.validators, TwoFieldShape]
  · simp [exportValue, exportEntries, dictKeys]
  · simp [mkShape, mergeFields, lookup, nsPlainNonCallable, Shape.fields, TwoFieldShape]

/-- Claim C10, amended: keys of the raw mapping that are not declared field
names have no effect — restricting the mapping to the declared field names
yields the same construction result (they neither fail construction nor are
stored) — and the serialized output of any successfully constructed
instance has as keys the two `BaseModel` class-table annotation names
followed by exactly the declared field names (so unknown input keys never
appear in it, but the dunder names always do). -/
theorem unknownKeys_ignored (s : Shape) (data : List (String × Value)) :
    construct s (data.filter fun p => decide (p.1 ∈ s.fields.map Prod.fst)) =
      construct s data ∧
    (∀ r, construct s data = .ok r →
      dictKeys (exportValue r) =
        "__field_defaults__" :: "__validators__" :: s.fields.map Prod.fst) := by
  constructor
  · unfold construct
    rw [constructFields_data_congr s s.fields _ data
      (fun p hp => lookup_filter_mem _ data p.1 (List.mem_map_of_mem Prod.fst hp))]
  · exact fun r hok => construct_ok_keys s data r hok

/-- Claim C10, witness: an undeclared key `zz` changes nothing, and the
serialized keys are the dunder pair followed by the declared ones. -/
theorem unknownKeys_ignored_witness :
    construct TwoFieldShape
        ([("a", Value.int 1), ("zz", Value.int 9), ("b", Value.int 2)].filter
          fun p => decide (p.1 ∈ (Shape.fields TwoFieldShape).map Prod.fst)) =
      construct TwoFieldShape [("a", Value.int 1), ("zz", Value.int 9), ("b", Value.int 2)] ∧
    dictKeys (exportValue
        (Value.inst ["S2", "BaseModel"] [("a", Value.int 1), ("b", Value.int 2)])) =
      "__field_defaults__" :: "__validators__" ::
        (Shape.fields TwoFieldShape).map Prod.fst :=
  ⟨(unknownKeys_ignored TwoFieldShape
      [("a", Value.int 1), ("zz", Value.int 9), ("b", Value.int 2)]).1,
   (unknownKeys_ignored TwoFieldShape
      [("a", Value.int 1), ("zz", Value.int 9), ("b", Value.int 2)]).2
    (Value.inst ["S2", "BaseModel"] [("a", Value.int 1), ("b", Value.int 2)])
    (by simp [construct, constructFields, resolveRaw, defaultResolved, allowsNone,
      applyValidators, lookupVals, coerce, isInstanceOf, lookup, updateAssoc, appendAssoc,
      mkShape, mergeFields, nsPlainNonCallable, Shape.fields, Shape.mro, Shape.name,
      Shape.defaults, Shape.validators, TwoFieldShape])⟩

end Pyd
